import Mathlib

/-!
Verification development for the `scraping-dbg` crawler.

The Rust sources are shallowly embedded below:
* `src/scrapers/selector.rs` / `src/engine.rs` — `form_values`, `select_links`
* `src/parsing.rs` — `BipData::from_html` and its text normalization
* `src/lib.rs` — `BipClient::new`, `list_view`, `list_view_paged`, `detail_links`
* `src/engine.rs` — `Engine::get` retry loop
* `src/scrapers/pipelines.rs` — `StdOutPipeline`
* `src/scrapers/retry.rs` — `RetryLimit::should_retry`

HTML documents are embedded post-parse as ordered trees (`HNode`); libxml's
lenient string parsing itself is not modelled.  Rust panics (`unwrap!`,
`unimplemented!`, arithmetic overflow under debug checks) are modelled as
`none` / a dedicated `Option` layer, so that "the process crashes" is an
observable outcome of the embedding.
-/

/-- Error type of `src/scrapers/mod.rs` (`EngineError`); the payload strings
mirror the `format!` messages in the source. -/
inductive EngineError where
  | parsingError (msg : String)
  | ioError (msg : String)
  | requestCloneError (msg : String)
deriving DecidableEq, Repr

/-- Error type of `src/lib.rs` (`ApiError`). -/
inductive ApiError where
  | ioError (msg : String)
  | noCookie
  | parsingError (msg : String)
  | loggedOut
  | selectionError (msg : String)
deriving DecidableEq, Repr

/-- Parsed HTML node: an element with tag, attribute list and ordered
children, or a text node.  This is the tree libxml hands back to the
scraper. -/
inductive HNode where
  | elem (tag : String) (attrs : List (String × String)) (children : List HNode)
  | text (s : String)

/-- Tag of an element node (`None` for text nodes). -/
def tagOf : HNode → Option String
  | .elem t _ _ => some t
  | .text _ => none

/-- `Node::get_attribute`: the value of the named attribute, if present. -/
def attrOf (n : HNode) (name : String) : Option String :=
  match n with
  | .elem _ attrs _ => attrs.lookup name
  | .text _ => none

/-- Children of a node. -/
def childrenOf : HNode → List HNode
  | .elem _ _ cs => cs
  | .text _ => []

mutual

/-- Preorder (document-order) listing of a node and all its descendants. -/
def descOrSelf : HNode → List HNode
  | .text s => [.text s]
  | .elem t a cs => .elem t a cs :: descListOf cs

/-- Preorder listing of all nodes of a forest. -/
def descListOf : List HNode → List HNode
  | [] => []
  | n :: ns => descOrSelf n ++ descListOf ns

end

/-- `descendant::` axis: every proper descendant of `n` in document order. -/
def descendantsOf (n : HNode) : List HNode :=
  descListOf (childrenOf n)

mutual

/-- `Node::get_content`: the concatenated text content of a subtree. -/
def textContent : HNode → String
  | .text s => s
  | .elem _ _ cs => textContentList cs

/-- Concatenated text content of a forest. -/
def textContentList : List HNode → String
  | [] => ""
  | n :: ns => textContent n ++ textContentList ns

end

/-- Nodes matching an element-name query (the `//tag` XPaths used by the
scraper), in document order, as libxml's `findnodes` returns them. -/
def findAll (tag : String) (root : HNode) : List HNode :=
  (descOrSelf root).filter (fun n => tagOf n == some tag)

/-- Input-node handling of `form_values` (selector.rs lines 60-79): skip
click-only types, unchecked radio/checkbox, disabled fields; otherwise emit
the (name, value) attribute pair when both are present. -/
def inputValue (n : HNode) : Option (String × String) :=
  let typeSkip :=
    match attrOf n "type" with
    | some t =>
      if t == "submit" || t == "reset" || t == "image" then true
      else if (t == "radio" || t == "checkbox") && !(attrOf n "checked" == some "checked") then true
      else false
    | none => false
  if typeSkip then none
  else if attrOf n "disabled" == some "disabled" then none
  else match attrOf n "name", attrOf n "value" with
    | some name, some value => some (name, value)
    | _, _ => none

/-- Select-node handling of `form_values` (selector.rs lines 81-96): for a
named select, chain the `selected="selected"` options in front of all
options, keep those with a `value` attribute, and take the first; `none`
models the "select node had no usable child" warning with nothing
appended. -/
def selectValue (n : HNode) : Option (String × String) :=
  match attrOf n "name" with
  | none => none
  | some name =>
    let opts := (childrenOf n).filter (fun o => tagOf o == some "option")
    let selOpts := opts.filter (fun o => attrOf o "selected" == some "selected")
    match ((selOpts ++ opts).filterMap (fun o => attrOf o "value")).head? with
    | none => none
    | some v => some (name, v)

/-- Textarea handling of `form_values` (selector.rs lines 99-103): a named
textarea contributes its text content, even when empty. -/
def textareaValue (n : HNode) : Option (String × String) :=
  match attrOf n "name" with
  | none => none
  | some name => some (name, textContent n)

/-- `form_values` of selector.rs (the identical copy lives in engine.rs):
pick the form node via `.pop()` on the `findnodes` result — the *last*
match in document order — then collect input, select and textarea pairs in
document order. -/
def form_values (root : HNode) (formTag : String) : Except EngineError (List (String × String)) :=
  match (findAll formTag root).getLast? with
  | none => .error (.parsingError "No form-node found")
  | some form =>
    .ok (((descendantsOf form).filter (fun n => tagOf n == some "input")).filterMap inputValue
      ++ ((descendantsOf form).filter (fun n => tagOf n == some "select")).filterMap selectValue
      ++ ((descendantsOf form).filter (fun n => tagOf n == some "textarea")).filterMap textareaValue)

/-- Field set of one given form node, as the spec describes it: inputs,
then selects, then textareas, in document order. -/
def fieldsOfForm (form : HNode) : List (String × String) :=
  ((descendantsOf form).filter (fun n => tagOf n == some "input")).filterMap inputValue
    ++ ((descendantsOf form).filter (fun n => tagOf n == some "select")).filterMap selectValue
    ++ ((descendantsOf form).filter (fun n => tagOf n == some "textarea")).filterMap textareaValue

/-- Select-field policy as the (amended) spec words it: the first option
flagged selected that carries a `value` attribute, else the first option in
document order that carries one, else nothing. -/
def selectSpecValue (n : HNode) : Option (String × String) :=
  match attrOf n "name" with
  | none => none
  | some name =>
    let opts := (childrenOf n).filter (fun o => tagOf o == some "option")
    let hasVal := fun o => (attrOf o "value").isSome
    let chosen :=
      match (opts.filter (fun o => attrOf o "selected" == some "selected" && hasVal o)).head? with
      | some o => some o
      | none => (opts.filter hasVal).head?
    chosen.bind (fun o => (attrOf o "value").map (fun v => (name, v)))

/-- Character class of the regex `[\t\v\f\r ]+` in `parsing.rs`
(horizontal whitespace). -/
def isHWS (c : Char) : Bool :=
  c == ' ' || c == '\t' || c == '\r' || c == '\x0B' || c == '\x0C'

/-- Character class of the regex `\s` (ASCII whitespace; `parsing.rs` runs
the default-Unicode class, whose extra code points none of the scraped
pages contain). -/
def isWS (c : Char) : Bool := isHWS c || c == '\n'

/-- First regex pass of `extract_and_strip`:
`re_whitespace.replace_all(s, " ")` with `re_whitespace = [\t\v\f\r ]+` —
every maximal run of horizontal whitespace becomes one space. -/
def collapseHWS : List Char → List Char
  | [] => []
  | [c] => if isHWS c then [' '] else [c]
  | c :: d :: rest =>
    if isHWS c then
      if isHWS d then collapseHWS (d :: rest)
      else ' ' :: collapseHWS (d :: rest)
    else c :: collapseHWS (d :: rest)

/-- Second regex pass of `extract_and_strip`:
`re_linebreaks.replace_all(s, "\n\n")` with `re_linebreaks = (\n\s*){2,}`.
A leftmost match starts at a line break, greedily swallows the whole
whitespace run that follows, and exists exactly when that run holds a
second line break; the match is replaced by one blank line. -/
def collapseLB (l : List Char) : List Char :=
  match l with
  | [] => []
  | c :: rest =>
    if c = '\n' ∧ 1 ≤ (rest.takeWhile isWS).count '\n' then
      '\n' :: '\n' :: collapseLB (rest.drop (rest.takeWhile isWS).length)
    else
      c :: collapseLB rest
termination_by l.length
decreasing_by
  · simp only [List.length_drop, List.length_cons]
    omega
  · simp only [List.length_cons]
    omega

/-- The two regex passes of `extract_and_strip`, in source order. -/
def normalizeChars (l : List Char) : List Char := collapseLB (collapseHWS l)

/-- Text normalization of `extract_and_strip` (parsing.rs lines 32-37) on
strings. -/
def normalizeText (s : String) : String := String.mk (normalizeChars s.data)

/-- Local well-formedness of one character with respect to its successor:
a horizontal-whitespace character must be a single space not followed by
more horizontal whitespace.  Output characters of `collapseHWS` satisfy
this pointwise. -/
def hwsOK : Char → Option Char → Bool
  | c, none => !(isHWS c) || c == ' '
  | c, some d => !(isHWS c) || (c == ' ' && !(isHWS d))

/-- A character list is horizontal-whitespace normal when every character
satisfies `hwsOK` with respect to its successor. -/
def hwsNormed : List Char → Bool
  | [] => true
  | c :: rest => hwsOK c rest.head? && hwsNormed rest

/-- Does one character list start with another? -/
def isPrefixList : List Char → List Char → Bool
  | [], _ => true
  | _ :: _, [] => false
  | a :: xs, b :: ys => a == b && isPrefixList xs ys

/-- Does the second list contain the first as a contiguous subsequence?
Models the XPath `contains(...)` and Rust's `str::contains`. -/
def containsSeq (needle : List Char) : List Char → Bool
  | [] => isPrefixList needle []
  | c :: rest => isPrefixList needle (c :: rest) || containsSeq needle rest

/-- Substring test on strings. -/
def containsSub (s pat : String) : Bool := containsSeq pat.data s.data

/-- Attribute serialization used by `nodeToString`. -/
def attrsToString : List (String × String) → String
  | [] => ""
  | (k, v) :: rest => " " ++ k ++ "=" ++ v ++ attrsToString rest

mutual

/-- `Document::node_to_string`: serialize a subtree back to markup. -/
def nodeToString : HNode → String
  | .text s => s
  | .elem t attrs cs => "<" ++ t ++ attrsToString attrs ++ ">" ++ nodesToString cs ++ "</" ++ t ++ ">"

/-- Serialization of a forest. -/
def nodesToString : List HNode → String
  | [] => ""
  | n :: ns => nodeToString n ++ nodesToString ns

end

/-- Matcher for the XPaths `//fieldset[h1[contains(text(), kw)]]` of
`BipData::from_html`: a fieldset element with an `h1` child whose text
contains the keyword. -/
def fieldsetWith (kw : String) (n : HNode) : Bool :=
  tagOf n == some "fieldset" &&
    (childrenOf n).any (fun c => tagOf c == some "h1" && containsSub (textContent c) kw)

/-- `extract_and_strip` of parsing.rs: the query must match exactly one
node, whose serialized form is normalized; any other match count is the
"Unexpected HTML schema" error. -/
def extract_and_strip (doc : HNode) (kw : String) : Except ApiError String :=
  match (descOrSelf doc).filter (fieldsetWith kw) with
  | [node] => .ok (normalizeText (nodeToString node))
  | _ => .error (.parsingError "Unexpected HTML schema")

/-- Record struct of parsing.rs; all three fields are plain strings. -/
structure BipData where
  content : String
  summary : String
  tag_words : String
deriving DecidableEq, Repr

/-- Keyword of the `content` query of `BipData::from_html`. -/
def kwInhalt : String := "Inhalt"

/-- Keyword of the `summary` query of `BipData::from_html`. -/
def kwBasis : String := "Basisinformationen"

/-- Keyword of the `tag_words` query of `BipData::from_html` (the byte
sequence in parsing.rs is mojibake for "Schlagwörter"; reproduced as in
the source). -/
def kwTags : String := "Schlagw√∂rter"

/-- `BipData::from_html` (parsing.rs lines 16-52): three `?`-propagated
extractions, `content` first, then `summary`, then `tag_words`. -/
def BipData.from_html (doc : HNode) : Except ApiError BipData :=
  match extract_and_strip doc kwInhalt with
  | .error e => .error e
  | .ok content =>
    match extract_and_strip doc kwBasis with
    | .error e => .error e
    | .ok summary =>
      match extract_and_strip doc kwTags with
      | .error e => .error e
      | .ok tag_words => .ok ⟨content, summary, tag_words⟩

/-- Is an `Except` value a success? -/
def exceptOk : Except ε α → Bool
  | .ok _ => true
  | .error _ => false

/-- Absolute URL, reduced to the parts the crawler inspects: scheme, host
and path segments (as `url::Url::path_segments` yields them). -/
structure Url where
  scheme : String
  host : String
  path : List String
deriving DecidableEq, Repr

/-- Split a character list at `/` separators. -/
def splitSlashAux : List Char → List Char → List (List Char)
  | [], acc => [acc.reverse]
  | c :: rest, acc =>
    if c = '/' then acc.reverse :: splitSlashAux rest []
    else splitSlashAux rest (c :: acc)

/-- Split a character list at `/` into string segments. -/
def splitSlash (l : List Char) : List String := (splitSlashAux l []).map String.mk

/-- Strip a leading `http://`, if present. -/
def dropHttp : List Char → Option (List Char)
  | 'h' :: 't' :: 't' :: 'p' :: ':' :: '/' :: '/' :: rest => some rest
  | _ => none

/-- Parse an absolute `http://host/…` URL, failing on an empty host. -/
def parseUrlChars (l : List Char) : Option Url :=
  match dropHttp l with
  | none => none
  | some rest =>
    match splitSlash rest with
    | [] => none
    | host :: segs => if host = "" then none else some ⟨"http", host, segs⟩

/-- `url::Url::join` (RFC 3986 reference resolution), restricted to the
reference shapes this crawler produces: absolute `http` references,
host-relative references starting with `/`, and relative path references,
which replace the last segment of the base path. -/
def urlJoin (base : Url) (ref : String) : Option Url :=
  match dropHttp ref.data with
  | some _ => parseUrlChars ref.data
  | none =>
    match ref.data with
    | '/' :: rest => some { base with path := splitSlash rest }
    | l => some { base with path := base.path.dropLast ++ splitSlash l }

/-- `BASE_URL` of lib.rs: the fixed base `http://dipbt.bundestag.de/`
every `detail_links` href is resolved against. -/
def BASE_URL : Url := ⟨"http", "dipbt.bundestag.de", [""]⟩

/-- Href values selected by the XPath
`//div[@class='tabelleGross']//a[@class='linkIntern']/@href`, in document
order. -/
def detail_hrefs (root : HNode) : List String :=
  (((descOrSelf root).filter
      (fun n => tagOf n == some "div" && attrOf n "class" == some "tabelleGross")).map
    (fun d => ((descendantsOf d).filter
        (fun a => tagOf a == some "a" && attrOf a "class" == some "linkIntern")).filterMap
      (fun a => attrOf a "href"))).flatten

/-- Resolve a list of hrefs against a base, failing on the first invalid
one as the extraction loops of lib.rs/selector.rs/engine.rs do. -/
def resolveLinks (err : α) (base : Url) : List String → Except α (List Url)
  | [] => .ok []
  | h :: t =>
    match urlJoin base h with
    | none => .error err
    | some u =>
      match resolveLinks err base t with
      | .error e => .error e
      | .ok us => .ok (u :: us)

/-- `detail_links` of lib.rs (lines 244-261): takes only the body, and
resolves every href against the constant `BASE_URL`. -/
def detail_links (root : HNode) : Except ApiError (List Url) :=
  resolveLinks (ApiError.selectionError "Invalid Url") BASE_URL (detail_hrefs root)

/-- `Response` of engine.rs: the stored `url` field and the parsed body. -/
structure EngResponse where
  url : Url
  body : HNode

/-- How `Engine::get` builds its `Response`: `request2body` returns only
the body text, so the transport's final URL (`finalUrl`, known to reqwest
after redirects) is discarded and the *requested* URL is stored. -/
def engine_mk_response (requested : Url) (_finalUrl : Url) (body : HNode) : EngResponse :=
  { url := requested, body := body }

/-- `Response::select_links` of engine.rs: resolve against the stored
(requested) URL. -/
def response_select_links (r : EngResponse) : Except EngineError (List Url) :=
  resolveLinks (EngineError.parsingError "Invalid Url") r.url (detail_hrefs r.body)

/-- A transport-level response: the final URL after redirects plus the
parsed body. -/
structure HttpResponse where
  finalUrl : Url
  body : HNode

/-- `Selector` of selector.rs: base URL plus parsed document. -/
structure Selector where
  base_url : Url
  doc : HNode

/-- `Selector::from_response`: the base URL is `response.url()`, the final
URL after any redirect. -/
def selector_from_response (r : HttpResponse) : Selector :=
  { base_url := r.finalUrl, doc := r.body }

/-- `Selector::select_links`: resolve against the selector's base URL. -/
def selector_select_links (s : Selector) : Except EngineError (List Url) :=
  resolveLinks (EngineError.parsingError "Invalid Url") s.base_url (detail_hrefs s.doc)

/-- Retry loop of `Engine::get` (engine.rs lines 98-122) over a scripted
transport: each attempt consumes one scripted outcome (`error` covers both
network failures and non-2xx statuses, which `request2body` merges); a
success returns the body, a failure continues the loop.  The result pairs
the number of attempts made with `some body` on success and `none` when
the loop exhausts `retries` and falls into `unimplemented!()` — the
process panics instead of returning an error value. -/
def engine_get : Nat → List (Except EngineError String) → Nat × Option String
  | 0, _ => (0, none)
  | _ + 1, [] => (0, none)
  | r + 1, o :: rest =>
    match o with
    | .ok body => (1, some body)
    | .error _ =>
      match engine_get r rest with
      | (n, res) => (n + 1, res)

/-- One scripted outcome for `BipClient::list_view_paged`. -/
inductive LvOutcome where
  | transportErr (e : String)
  | statusErr (e : String)
  | success (body : String)

/-- Retry loop of `BipClient::list_view_paged` (lib.rs lines 158-185):
transport errors propagate immediately through `?` (no retry); non-2xx
statuses retry while `i_try < n_retries`, incrementing `i_try`; the result
pairs the attempt count with the outcome. -/
def list_view_paged_run : Nat → Nat → List LvOutcome → Nat × Except ApiError String
  | _, _, [] => (0, .error (.ioError "missing scripted outcome"))
  | i_try, n_retries, o :: rest =>
    match o with
    | .transportErr e => (1, .error (.ioError e))
    | .success body => (1, .ok body)
    | .statusErr e =>
      if i_try < n_retries then
        match list_view_paged_run (i_try + 1) n_retries rest with
        | (n, r) => (n + 1, r)
      else (1, .error (.ioError e))

/-- `StdOutPipeline::handle_item` (pipelines.rs lines 8-13):
`thing.unwrap()` — an `Err` item panics, modelled as `none`. -/
def handle_item : Except EngineError α → Option α
  | .ok a => some a
  | .error _ => none

/-- `StdOutPipeline::pipe_out`: feed every stream item through
`handle_item`.  Returns the items handled before any panic, and whether a
panic occurred (aborting the rest of the stream). -/
def pipe_out : List (Except EngineError α) → List α × Bool
  | [] => ([], false)
  | r :: rest =>
    match handle_item r with
    | none => ([], true)
    | some a =>
      match pipe_out rest with
      | (out, crashed) => (a :: out, crashed)

/-- Pagination loop of `BipClient::list_view` (lib.rs lines 126-138) over
an oracle `pages` mapping an offset to that list page's links: request the
page at the current offset, stop on an empty page, otherwise accumulate
and advance the offset by the hard-coded page size 100.  The result pairs
the collected links with the number of list-page requests issued; `fuel`
bounds the recursion and `none` means the loop did not terminate within
it. -/
def list_view_fuel (pages : Nat → List String) : Nat → Nat → Option (List String × Nat)
  | _, 0 => none
  | offset, fuel + 1 =>
    if pages offset = [] then some ([], 1)
    else
      match list_view_fuel pages (offset + 100) fuel with
      | none => none
      | some (links, n) => some (pages offset ++ links, n + 1)

/-- `BipClient` of lib.rs; the client is identified by its cookie jar. -/
structure BipClient where
  cookied_client : List String
deriving DecidableEq, Repr

/-- `BipClient::new` (lib.rs lines 89-101) over the bootstrap outcome:
a network failure propagates as `IoError`; a response carrying zero
cookies is `NoCookie`; otherwise the cookied client is wrapped and
returned. -/
def bip_client_new (bootstrap : Except String (List String)) : Except ApiError BipClient :=
  match bootstrap with
  | .error e => .error (.ioError e)
  | .ok cookies =>
    if cookies.length = 0 then .error .noCookie
    else .ok ⟨cookies⟩

/-- `RetryLimit::should_retry` (retry.rs lines 38-45) under debug
overflow checks: the source computes `self.remaining_tries - 1` *before*
testing `self.remaining_tries > 0`, so a zero budget underflows the
`usize` subtraction and panics (`none`); otherwise `some d` returns
decision `d` — `some k` for a successor state with `k` tries left, `none`
inside for the terminal decision. -/
def should_retry_checked (remaining_tries : Nat) : Option (Option Nat) :=
  if remaining_tries = 0 then none
  else some (if remaining_tries > 0 then some (remaining_tries - 1) else none)

/-- `RetryLimit::should_retry` under release semantics: the subtraction
wraps modulo `2^64` and the wrapped value is discarded by the guard, so a
zero budget yields the terminal decision. -/
def should_retry_release (remaining_tries : Nat) : Option Nat :=
  if remaining_tries > 0 then some ((remaining_tries + (2 ^ 64 - 1)) % 2 ^ 64) else none

/-- Concrete document: the earlier of two forms. -/
def formA : HNode := .elem "form" [("id", "f1")] [ .elem "input" [("name", "a"), ("value", "1")] [] ]

/-- Concrete document: the later of two forms. -/
def formB : HNode := .elem "form" [("id", "f2")] [ .elem "input" [("name", "b"), ("value", "2")] [] ]

/-- Concrete document holding two forms in document order. -/
def twoFormsDoc : HNode := .elem "html" [] [ .elem "body" [] [formA, formB] ]

/-- Concrete document holding exactly one form. -/
def soleForm : HNode := .elem "form" [] [ .elem "input" [("name", "q"), ("value", "7")] [] ]

/-- Concrete document wrapping `soleForm`. -/
def soleFormDoc : HNode := .elem "html" [] [soleForm]

/-- Concrete document with no form at all. -/
def emptyDoc : HNode := .elem "html" [] []

/-- Concrete option flagged selected but carrying no `value` attribute. -/
def optSelectedNoValue : HNode := .elem "option" [("selected", "selected")] [ .text "first" ]

/-- Concrete unselected option carrying `value="b"`. -/
def optWithValueB : HNode := .elem "option" [("value", "b")] [ .text "second" ]

/-- Concrete named select whose first (and only selected) option has no
value attribute. -/
def selectNode : HNode := .elem "select" [("name", "s")] [optSelectedNoValue, optWithValueB]

/-- Concrete document wrapping `selectNode` in a form. -/
def selectDoc : HNode := .elem "html" [] [ .elem "form" [] [selectNode] ]

/-- Concrete result-table anchor with a relative href. -/
def linkAnchor : HNode := .elem "a" [("class", "linkIntern"), ("href", "foo/bar.do")] [ .text "link" ]

/-- Concrete list-page document containing `linkAnchor`. -/
def linkDoc : HNode := .elem "html" [] [ .elem "div" [("class", "tabelleGross")] [linkAnchor] ]

/-- Concrete final response URL `http://host/base/page.do` for the
redirect scenario. -/
def finalPageUrl : Url := ⟨"http", "host", ["base", "page.do"]⟩

/-- Concrete detail page carrying only the summary fieldset. -/
def summaryFieldset : HNode := .elem "fieldset" [] [ .elem "h1" [] [ .text "Basisinformationen" ], .text "Wichtige Daten" ]

/-- Concrete detail-page document with an extractable summary but no
content and no tag-words fieldsets. -/
def summaryOnlyDoc : HNode := .elem "html" [] [summaryFieldset]

/-- Concrete page oracle: non-empty pages at offsets 0 and 100, empty
from offset 200 on. -/
def pagesScript : Nat → List String := fun n => if n = 0 then ["p0"] else if n = 100 then ["p1"] else []

/-! ## Lemmas about the normalization passes -/

theorem collapseLB_nil : collapseLB [] = [] := by
  rw [collapseLB]

theorem collapseLB_cons_pos (rest : List Char) (h : 1 ≤ (rest.takeWhile isWS).count '\n') :
    collapseLB ('\n' :: rest) =
      '\n' :: '\n' :: collapseLB (rest.drop (rest.takeWhile isWS).length) := by
  rw [collapseLB]
  rw [if_pos ⟨rfl, h⟩]

theorem collapseLB_cons_neg (c : Char) (rest : List Char)
    (h : ¬(c = '\n' ∧ 1 ≤ (rest.takeWhile isWS).count '\n')) :
    collapseLB (c :: rest) = c :: collapseLB rest := by
  rw [collapseLB]
  rw [if_neg h]

theorem collapseLB_head (l : List Char) : (collapseLB l).head? = l.head? := by
  match l with
  | [] => rw [collapseLB_nil]
  | c :: rest =>
    by_cases h : c = '\n' ∧ 1 ≤ (rest.takeWhile isWS).count '\n'
    · obtain ⟨hc, hcnt⟩ := h
      subst hc
      rw [collapseLB_cons_pos rest hcnt]
      rfl
    · rw [collapseLB_cons_neg c rest h]
      rfl

theorem drop_length_takeWhile {α : Type} (p : α → Bool) :
    ∀ l : List α, l.drop (l.takeWhile p).length = l.dropWhile p
  | [] => rfl
  | c :: rest => by
    by_cases h : p c
    · rw [List.takeWhile_cons_of_pos h, List.dropWhile_cons_of_pos h]
      simp only [List.length_cons, List.drop_succ_cons]
      exact drop_length_takeWhile p rest
    · rw [List.takeWhile_cons_of_neg h, List.dropWhile_cons_of_neg h]
      rfl

theorem takeWhile_append_of_all {α : Type} {p : α → Bool} :
    ∀ (w q : List α), (∀ c ∈ w, p c = true) → (w ++ q).takeWhile p = w ++ q.takeWhile p
  | [], _, _ => by simp
  | c :: w', q, h => by
    have hc : p c = true := h c (by simp)
    rw [List.cons_append, List.takeWhile_cons_of_pos hc]
    rw [takeWhile_append_of_all w' q (fun x hx => h x (by simp [hx]))]
    rw [List.cons_append]

theorem takeWhile_eq_nil_of_head {α : Type} {p : α → Bool} (l : List α)
    (h : ∀ a, l.head? = some a → p a = false) : l.takeWhile p = [] := by
  match l with
  | [] => rfl
  | a :: t =>
    have ha := h a rfl
    rw [List.takeWhile_cons_of_neg (by simp [ha])]

theorem head?_dropWhile_false {α : Type} {p : α → Bool} :
    ∀ (l : List α) (a : α), (l.dropWhile p).head? = some a → p a = false
  | [], a, h => by simp at h
  | c :: rest, a, h => by
    by_cases hc : p c
    · rw [List.dropWhile_cons_of_pos hc] at h
      exact head?_dropWhile_false rest a h
    · rw [List.dropWhile_cons_of_neg hc] at h
      simp only [List.head?_cons, Option.some.injEq] at h
      subst h
      simpa using hc

theorem collapseLB_append_nonNL :
    ∀ (w q : List Char), (∀ c ∈ w, c ≠ '\n') → collapseLB (w ++ q) = w ++ collapseLB q
  | [], _, _ => by simp
  | c :: w', q, h => by
    have hc : c ≠ '\n' := h c (by simp)
    rw [List.cons_append, collapseLB_cons_neg c (w' ++ q) (fun hh => hc hh.1)]
    rw [collapseLB_append_nonNL w' q (fun x hx => h x (by simp [hx]))]
    rw [List.cons_append]

theorem takeWhile_collapseLB_dropWhile (rest : List Char) :
    (collapseLB (rest.dropWhile isWS)).takeWhile isWS = [] := by
  apply takeWhile_eq_nil_of_head
  intro a ha
  rw [collapseLB_head] at ha
  exact head?_dropWhile_false _ a ha

theorem length_dropWhile_le' {α : Type} (p : α → Bool) (l : List α) :
    (l.dropWhile p).length ≤ l.length := by
  rw [← drop_length_takeWhile p l]
  simp only [List.length_drop]
  omega

theorem collapseLB_collapseLB_of_le :
    ∀ (n : Nat) (l : List Char), l.length ≤ n → collapseLB (collapseLB l) = collapseLB l := by
  intro n
  induction n with
  | zero =>
    intro l hl
    have hnil : l = [] := List.length_eq_zero.mp (Nat.le_zero.mp hl)
    subst hnil
    rw [collapseLB_nil, collapseLB_nil]
  | succ n ih =>
    intro l hl
    match l with
    | [] => rw [collapseLB_nil, collapseLB_nil]
    | c :: rest =>
      have hrest : rest.length ≤ n := by
        simp only [List.length_cons] at hl
        omega
      by_cases hc : c = '\n'
      · subst hc
        by_cases hcnt : 1 ≤ (rest.takeWhile isWS).count '\n'
        · rw [collapseLB_cons_pos rest hcnt]
          rw [drop_length_takeWhile isWS rest]
          set z := rest.dropWhile isWS with hz
          set X := collapseLB z with hX
          have hXtw : X.takeWhile isWS = [] := by
            rw [hX, hz]
            exact takeWhile_collapseLB_dropWhile rest
          have h1 : ('\n' :: X).takeWhile isWS = '\n' :: X.takeWhile isWS :=
            List.takeWhile_cons_of_pos (by decide)
          have hcond : 1 ≤ (('\n' :: X).takeWhile isWS).count '\n' := by
            rw [h1, hXtw]
            simp
          rw [collapseLB_cons_pos ('\n' :: X) hcond]
          rw [h1, hXtw]
          simp only [List.length_cons, List.length_nil, List.drop_succ_cons, List.drop_zero]
          have hzlen : z.length ≤ n := le_trans (by rw [hz]; exact length_dropWhile_le' isWS rest) hrest
          rw [hX, ih z hzlen]
        · have hcond : ¬('\n' = '\n' ∧ 1 ≤ (rest.takeWhile isWS).count '\n') := fun hh => hcnt hh.2
          rw [collapseLB_cons_neg '\n' rest hcond]
          have hcnt0 : (rest.takeWhile isWS).count '\n' = 0 := by omega
          have hnotmem : '\n' ∉ rest.takeWhile isWS := List.count_eq_zero.mp hcnt0
          set w := rest.takeWhile isWS with hw
          set z := rest.dropWhile isWS with hz
          have hsplit : rest = w ++ z := by
            rw [hw, hz, List.takeWhile_append_dropWhile]
          have hwNN : ∀ x ∈ w, x ≠ '\n' := fun x hx hxx => hnotmem (hxx ▸ hx)
          have hrw : collapseLB rest = w ++ collapseLB z := by
            calc collapseLB rest = collapseLB (w ++ z) := by rw [← hsplit]
              _ = w ++ collapseLB z := collapseLB_append_nonNL w z hwNN
          rw [hrw]
          set X := collapseLB z with hX
          have hwWS : ∀ x ∈ w, isWS x = true := fun x hx => List.mem_takeWhile_imp (hw ▸ hx)
          have hXtw : X.takeWhile isWS = [] := by
            rw [hX, hz]
            exact takeWhile_collapseLB_dropWhile rest
          have htw : (w ++ X).takeWhile isWS = w := by
            rw [takeWhile_append_of_all w X hwWS, hXtw, List.append_nil]
          have hcond2 : ¬('\n' = '\n' ∧ 1 ≤ ((w ++ X).takeWhile isWS).count '\n') := by
            rw [htw]
            intro hh
            exact hcnt hh.2
          rw [collapseLB_cons_neg '\n' (w ++ X) hcond2]
          rw [collapseLB_append_nonNL w X hwNN]
          have hzlen : z.length ≤ n := le_trans (by rw [hz]; exact length_dropWhile_le' isWS rest) hrest
          rw [hX, ih z hzlen]
      · rw [collapseLB_cons_neg c rest (fun hh => hc hh.1)]
        rw [collapseLB_cons_neg c (collapseLB rest) (fun hh => hc hh.1)]
        rw [ih rest hrest]

theorem collapseLB_idem (l : List Char) : collapseLB (collapseLB l) = collapseLB l :=
  collapseLB_collapseLB_of_le l.length l (Nat.le_refl _)

theorem collapseHWS_head :
    ∀ l : List Char, (collapseHWS l).head? = l.head?.map (fun a => if isHWS a then ' ' else a)
  | [] => rfl
  | [c] => by
    cases hc : isHWS c <;> simp [collapseHWS, hc]
  | c :: d :: rest => by
    cases hc : isHWS c
    · simp [collapseHWS, hc]
    · cases hd : isHWS d
      · simp [collapseHWS, hc, hd]
      · have ih := collapseHWS_head (d :: rest)
        simp only [List.head?_cons, Option.map_some'] at ih
        simp [collapseHWS, hc, hd, ih]

theorem hwsNormed_collapseHWS : ∀ l : List Char, hwsNormed (collapseHWS l) = true
  | [] => rfl
  | [c] => by
    cases hc : isHWS c
    · simp [collapseHWS, hc, hwsNormed, hwsOK]
    · simp [collapseHWS, hc]
      decide
  | c :: d :: rest => by
    have ih := hwsNormed_collapseHWS (d :: rest)
    cases hc : isHWS c
    · have hh := collapseHWS_head (d :: rest)
      simp only [List.head?_cons, Option.map_some'] at hh
      simp [collapseHWS, hc, hwsNormed, hwsOK, ih, hh]
    · cases hd : isHWS d
      · have hh := collapseHWS_head (d :: rest)
        simp only [List.head?_cons, Option.map_some', hd, if_false] at hh
        rw [show collapseHWS (c :: d :: rest) = ' ' :: collapseHWS (d :: rest) from by
          simp [collapseHWS, hc, hd]]
        simp only [hwsNormed, hh, Bool.and_eq_true]
        refine ⟨?_, ih⟩
        simp [hwsOK, hd]
      · simp [collapseHWS, hc, hd, ih]

theorem collapseHWS_of_normed : ∀ l : List Char, hwsNormed l = true → collapseHWS l = l
  | [], _ => rfl
  | [c], h => by
    cases hc : isHWS c
    · simp [collapseHWS, hc]
    · simp only [hwsNormed, hwsOK, List.head?_nil, hc, Bool.not_true, Bool.false_or,
        Bool.and_true] at h
      have : c = ' ' := by simpa using h
      simp [collapseHWS, hc, this]
  | c :: d :: rest, h => by
    simp only [hwsNormed, Bool.and_eq_true] at h
    obtain ⟨h1, h2⟩ := h
    have ih := collapseHWS_of_normed (d :: rest) (by simp [hwsNormed, h2])
    cases hc : isHWS c
    · simp [collapseHWS, hc, ih]
    · simp only [List.head?_cons, hwsOK, hc, Bool.not_true, Bool.false_or,
        Bool.and_eq_true] at h1
      have hce : c = ' ' := by simpa using h1.1
      have hd : isHWS d = false := by simpa using h1.2
      simp [collapseHWS, hc, hd, ih, hce]

theorem hwsNormed_dropWhile (p : Char → Bool) :
    ∀ l : List Char, hwsNormed l = true → hwsNormed (l.dropWhile p) = true
  | [], _ => rfl
  | c :: rest, h => by
    simp only [hwsNormed, Bool.and_eq_true] at h
    by_cases hc : p c
    · rw [List.dropWhile_cons_of_pos hc]
      exact hwsNormed_dropWhile p rest h.2
    · rw [List.dropWhile_cons_of_neg hc]
      simp [hwsNormed, h.1, h.2]

theorem hwsOK_nonHWS (c : Char) (o : Option Char) (h : isHWS c = false) : hwsOK c o = true := by
  cases o <;> simp [hwsOK, h]

theorem hwsNormed_collapseLB_of_le :
    ∀ (n : Nat) (l : List Char),
      l.length ≤ n → hwsNormed l = true → hwsNormed (collapseLB l) = true := by
  intro n
  induction n with
  | zero =>
    intro l hl _
    have hnil : l = [] := List.length_eq_zero.mp (Nat.le_zero.mp hl)
    subst hnil
    rw [collapseLB_nil]
    rfl
  | succ n ih =>
    intro l hl h
    match l with
    | [] =>
      rw [collapseLB_nil]
      rfl
    | c :: rest =>
      have hrest : rest.length ≤ n := by
        simp only [List.length_cons] at hl
        omega
      simp only [hwsNormed, Bool.and_eq_true] at h
      obtain ⟨h1, h2⟩ := h
      by_cases hm : c = '\n' ∧ 1 ≤ (rest.takeWhile isWS).count '\n'
      · obtain ⟨hc, hcnt⟩ := hm
        subst hc
        rw [collapseLB_cons_pos rest hcnt, drop_length_takeWhile isWS rest]
        have hz : hwsNormed (rest.dropWhile isWS) = true := hwsNormed_dropWhile isWS rest h2
        have hzlen : (rest.dropWhile isWS).length ≤ n :=
          le_trans (length_dropWhile_le' isWS rest) hrest
        have hX : hwsNormed (collapseLB (rest.dropWhile isWS)) = true := ih _ hzlen hz
        simp only [hwsNormed, List.head?_cons, Bool.and_eq_true]
        exact ⟨hwsOK_nonHWS _ _ (by decide), hwsOK_nonHWS _ _ (by decide), hX⟩
      · rw [collapseLB_cons_neg c rest hm]
        have hX : hwsNormed (collapseLB rest) = true := ih rest hrest h2
        simp only [hwsNormed, Bool.and_eq_true]
        refine ⟨?_, hX⟩
        rw [collapseLB_head]
        exact h1

theorem normalizeChars_idem (l : List Char) :
    normalizeChars (normalizeChars l) = normalizeChars l := by
  unfold normalizeChars
  have h1 : hwsNormed (collapseHWS l) = true := hwsNormed_collapseHWS l
  have h2 : hwsNormed (collapseLB (collapseHWS l)) = true :=
    hwsNormed_collapseLB_of_le (collapseHWS l).length _ (Nat.le_refl _) h1
  rw [collapseHWS_of_normed _ h2, collapseLB_idem]

/-! ## Claim theorems -/

/-- C7: the text normalization applied by `extract_and_strip` (collapsing
runs of horizontal whitespace to one space and runs of two or more line
breaks to exactly two line breaks) is idempotent: applying it to its own
output yields the same output, for every input string. -/
theorem normalizeText_idempotent (s : String) :
    normalizeText (normalizeText s) = normalizeText s :=
  congrArg String.mk (normalizeChars_idem s.data)

/-- C1 (failing behavior): with the hard-coded ceiling of 3 and a scripted
transport yielding only failures, `Engine::get` makes exactly 3 attempts
and then panics through `unimplemented!()` (the `none` outcome) instead of
returning the last error; `BipClient::list_view_paged` with `n_retries = 3`
makes 4 attempts on non-2xx outcomes before surfacing the error, and does
not retry transport errors at all. -/
theorem engine_retry_exhaustion :
    engine_get 3 [.error (.ioError "e1"), .error (.ioError "e2"), .error (.ioError "e3")]
        = (3, none)
    ∧ list_view_paged_run 0 3 [.statusErr "s1", .statusErr "s2", .statusErr "s3", .statusErr "s4"]
        = (4, .error (.ioError "s4"))
    ∧ list_view_paged_run 0 3 [.transportErr "t"] = (1, .error (.ioError "t")) :=
  ⟨rfl, rfl, rfl⟩

/-- C5 (failing behavior): a stream of three detail-page results whose
second entry is a parse failure: `StdOutPipeline::handle_item` unwraps the
`Err` and panics, so the pipeline reports a crash and the third record is
never emitted — the claimed report-and-skip behavior does not happen. -/
theorem pipeline_err_item_halts :
    pipe_out [Except.ok 1, Except.error (EngineError.parsingError "bad detail page"),
        Except.ok 2]
      = ([1], true) :=
  rfl

/-- C10 (failing behavior): `RetryLimit::should_retry` subtracts before
testing the guard, so an exhausted budget (0 remaining tries) underflows
the `usize` subtraction — a panic under debug overflow checks — while a
positive budget `k + 1` returns the successor decision with `k` tries
left; under release (wrapping) semantics the wrapped value is discarded
and the terminal decision is returned. -/
theorem should_retry_zero_underflow :
    should_retry_checked 0 = none
    ∧ should_retry_release 0 = none
    ∧ (∀ k : Nat, should_retry_checked (k + 1) = some (some k)) := by
  refine ⟨rfl, rfl, ?_⟩
  intro k
  simp [should_retry_checked]

/-- C8: when the list pages at offsets 0 and 100 are non-empty and the
page at offset 200 is empty, `BipClient::list_view` issues exactly three
list-page requests, advancing the offset by the page size 100 after each
non-empty page, stops at the first empty page, and returns the links of
the non-empty pages concatenated in page order. -/
theorem list_view_pagination (pages : Nat → List String) (fuel : Nat)
    (h0 : pages 0 ≠ []) (h1 : pages 100 ≠ []) (h2 : pages 200 = []) (hf : 3 ≤ fuel) :
    list_view_fuel pages 0 fuel = some (pages 0 ++ pages 100, 3) := by
  have unf : ∀ (off n : Nat),
      list_view_fuel pages off (n + 1) =
        if pages off = [] then some ([], 1)
        else
          match list_view_fuel pages (off + 100) n with
          | none => none
          | some (links, m) => some (pages off ++ links, m + 1) :=
    fun off n => rfl
  obtain ⟨k, rfl⟩ : ∃ k, fuel = k + 3 := ⟨fuel - 3, by omega⟩
  have e1 : list_view_fuel pages 200 (k + 1) = some ([], 1) := by
    rw [unf 200 k, if_pos h2]
  have e2 : list_view_fuel pages 100 (k + 2) = some (pages 100, 2) := by
    rw [show k + 2 = (k + 1) + 1 from rfl, unf 100 (k + 1), if_neg h1]
    simp [e1]
  rw [show k + 3 = (k + 2) + 1 from rfl, unf 0 (k + 2), if_neg h0]
  simp [e2]

/-- Witness for C8: a concrete page oracle with non-empty pages at 0 and
100 and an empty page at 200 yields `["p0", "p1"]` after exactly three
requests. -/
theorem list_view_pagination_witness :
    list_view_fuel pagesScript 0 3 = some (["p0", "p1"], 3) := by
  have h := list_view_pagination pagesScript 3 (by simp [pagesScript])
    (by simp [pagesScript]) (by simp [pagesScript]) (by norm_num)
  simpa [pagesScript] using h

/-- C9: `BipClient::new` fails with `NoCookie` exactly when the bootstrap
request succeeded but set no cookies; when at least one cookie is set, the
cookied client is returned (a failed bootstrap request is an `IoError`,
not `NoCookie`). -/
theorem bip_client_new_no_cookie (bootstrap : Except String (List String)) :
    (bip_client_new bootstrap = .error .noCookie ↔ bootstrap = .ok [])
    ∧ (∀ cs, bootstrap = .ok cs → cs ≠ [] → bip_client_new bootstrap = .ok ⟨cs⟩) := by
  constructor
  · cases bootstrap with
    | error e => simp [bip_client_new]
    | ok cs =>
      by_cases h : cs.length = 0
      · have hnil : cs = [] := List.length_eq_zero.mp h
        subst hnil
        simp [bip_client_new]
      · have hne : cs ≠ [] := fun hh => h (by simp [hh])
        simp [bip_client_new, h, hne]
  · intro cs hcs hne
    subst hcs
    have h : ¬cs.length = 0 := fun hh => hne (List.length_eq_zero.mp hh)
    simp [bip_client_new, h]

/-- Witness for C9: one cookie yields the cookied client; an empty cookie
set yields `NoCookie`. -/
theorem bip_client_new_witness :
    bip_client_new (.ok ["JSESSIONID=abc"]) = .ok ⟨["JSESSIONID=abc"]⟩
    ∧ bip_client_new (.ok []) = .error .noCookie := by
  constructor
  · exact (bip_client_new_no_cookie (.ok ["JSESSIONID=abc"])).2 ["JSESSIONID=abc"] rfl (by simp)
  · exact (bip_client_new_no_cookie (.ok [])).1.mpr rfl

/-- C2 (amended): form locating: no match yields the "No form-node found"
error; with matches present, the field set is computed from the *last*
matching form in document order (the `.pop()` call), and all earlier
matches are ignored. -/
theorem form_values_locator_spec (root : HNode) (tag : String) :
    (findAll tag root = [] →
      form_values root tag = .error (EngineError.parsingError "No form-node found"))
    ∧ (∀ f, (findAll tag root).getLast? = some f →
        form_values root tag = .ok (fieldsOfForm f)) := by
  constructor
  · intro h
    unfold form_values
    rw [h]
    rfl
  · intro f hf
    unfold form_values
    rw [hf]
    rfl

/-- Witness for C2: a document with no form errors out; a document whose
form list ends in `soleForm` yields exactly that form's fields. -/
theorem form_values_locator_spec_witness :
    form_values emptyDoc "form" = .error (EngineError.parsingError "No form-node found")
    ∧ form_values soleFormDoc "form" = .ok (fieldsOfForm soleForm) := by
  constructor
  · exact (form_values_locator_spec emptyDoc "form").1 rfl
  · exact (form_values_locator_spec soleFormDoc "form").2 soleForm rfl

/-- Counterexample for C2 as stated: with two forms in document order, the
extracted field set is that of the *second* form, not the first: the claim
"the field set is computed from the first matching form" fails on
`twoFormsDoc`. -/
theorem form_values_two_forms_uses_last :
    form_values twoFormsDoc "form" = .ok [("b", "2")]
    ∧ findAll "form" twoFormsDoc = [formA, formB]
    ∧ fieldsOfForm formA = [("a", "1")]
    ∧ ([("b", "2")] : List (String × String)) ≠ [("a", "1")] := by
  refine ⟨rfl, rfl, rfl, by decide⟩

theorem head?_filterMap_eq {α β : Type} (f : α → Option β) :
    ∀ l : List α, (l.filterMap f).head? = ((l.filter (fun o => (f o).isSome)).head?).bind f
  | [] => rfl
  | a :: t => by
    cases hf : f a with
    | none =>
      rw [List.filterMap_cons_none hf]
      rw [List.filter_cons_of_neg (by simp [hf])]
      exact head?_filterMap_eq f t
    | some b =>
      rw [List.filterMap_cons_some hf]
      rw [List.filter_cons_of_pos (by simp [hf])]
      simp [hf]

/-- C3 (amended): the select-field policy of `form_values` agrees, on
every node, with the spec-side policy: the chosen value is that of the
first option flagged selected *that carries a `value` attribute*, else
that of the first option in document order carrying one; a named select
none of whose options carries a `value` attribute (zero options included)
contributes no pair, only the non-fatal warning. -/
theorem selectValue_eq_selectSpecValue (n : HNode) : selectValue n = selectSpecValue n := by
  unfold selectValue selectSpecValue
  cases attrOf n "name" with
  | none => rfl
  | some name =>
    dsimp only
    rw [head?_filterMap_eq, List.filter_append, List.head?_append, List.filter_filter]
    rw [List.filter_congr
      (fun a _ => Bool.and_comm ((attrOf a "value").isSome) (attrOf a "selected" == some "selected"))]
    cases hX : (((childrenOf n).filter (fun o => tagOf o == some "option")).filter
        (fun a => (attrOf a "selected" == some "selected") && (attrOf a "value").isSome)).head? with
    | some o =>
      simp only [Option.or_some, Option.some_bind]
      cases attrOf o "value" <;> rfl
    | none =>
      simp only [Option.none_or]
      cases hY : (((childrenOf n).filter (fun o => tagOf o == some "option")).filter
          (fun o => (attrOf o "value").isSome)).head? with
      | some o =>
        simp only [Option.some_bind]
        cases attrOf o "value" <;> rfl
      | none => rfl

/-- Counterexample for C3 as stated: a named select whose first (and only
selected) option has no `value` attribute: the pair appended carries the
value of the *second, unselected* option, not that of the first option
flagged selected. -/
theorem select_skips_selected_without_value :
    form_values selectDoc "form" = .ok [("s", "b")]
    ∧ attrOf optSelectedNoValue "selected" = some "selected"
    ∧ attrOf optSelectedNoValue "value" = none
    ∧ attrOf optWithValueB "selected" = none
    ∧ attrOf optWithValueB "value" = some "b"
    ∧ childrenOf selectNode = [optSelectedNoValue, optWithValueB] := by
  refine ⟨rfl, rfl, rfl, rfl, rfl, rfl⟩

/-- C4 (amended): only `Selector::from_response` resolves links against
the final response URL; `Response::select_links` in engine.rs resolves
against the originally requested URL whatever the final URL was (the final
URL is discarded), and `detail_links` in lib.rs resolves against the fixed
`BASE_URL`. -/
theorem link_resolution_bases (requested finalUrl finalUrl' : Url) (body : HNode) :
    selector_select_links (selector_from_response ⟨finalUrl, body⟩) =
      resolveLinks (EngineError.parsingError "Invalid Url") finalUrl (detail_hrefs body)
    ∧ response_select_links (engine_mk_response requested finalUrl body) =
        response_select_links (engine_mk_response requested finalUrl' body)
    ∧ detail_links body =
        resolveLinks (ApiError.selectionError "Invalid Url") BASE_URL (detail_hrefs body) :=
  ⟨rfl, rfl, rfl⟩

/-- Counterexample for C4 as stated: a list page served from final URL
`http://host/base/page.do` with the relative href `foo/bar.do`:
`detail_links` resolves it against the fixed base to
`http://dipbt.bundestag.de/foo/bar.do`, not against the final response URL,
which would give `http://host/base/foo/bar.do`. -/
theorem detail_links_use_fixed_base :
    detail_links linkDoc = .ok [⟨"http", "dipbt.bundestag.de", ["foo", "bar.do"]⟩]
    ∧ urlJoin finalPageUrl "foo/bar.do" = some ⟨"http", "host", ["base", "foo", "bar.do"]⟩
    ∧ (⟨"http", "dipbt.bundestag.de", ["foo", "bar.do"]⟩ : Url)
        ≠ ⟨"http", "host", ["base", "foo", "bar.do"]⟩ := by
  refine ⟨rfl, rfl, by decide⟩

/-- C6 (amended): `BipData::from_html` succeeds exactly when all three
extractions — content, summary and tag words — succeed; none of the three
fields is optional, so an extractable summary alone does not make record
construction succeed. -/
theorem from_html_ok_iff_all_three (doc : HNode) :
    exceptOk (BipData.from_html doc) =
      (exceptOk (extract_and_strip doc kwInhalt) && exceptOk (extract_and_strip doc kwBasis)
        && exceptOk (extract_and_strip doc kwTags)) := by
  unfold BipData.from_html
  cases h1 : extract_and_strip doc kwInhalt <;>
    cases h2 : extract_and_strip doc kwBasis <;>
      cases h3 : extract_and_strip doc kwTags <;>
        simp [exceptOk]

/-- Counterexample for C6 as stated: a detail page whose summary fieldset
is present and extractable but which lacks the content fieldset: record
construction nevertheless fails with the "Unexpected HTML schema" error. -/
theorem from_html_summary_alone_fails :
    BipData.from_html summaryOnlyDoc = .error (ApiError.parsingError "Unexpected HTML schema")
    ∧ exceptOk (extract_and_strip summaryOnlyDoc kwBasis) = true := by
  exact ⟨rfl, rfl⟩
